import Mathlib

/-!
Verification of the leveldb filter-block builder/reader pair
(`table/filter_block.cc`).

The C++ code is shallowly embedded: byte strings become `List Nat`
(each element one byte value), `size_t`/`uint64_t` arithmetic becomes
`Nat` arithmetic, and the `uint32_t` casts performed by `PutFixed32` /
`DecodeFixed32` are made explicit at the byte-encoding boundary
(encoding a `Nat` keeps only its value modulo 2^32, exactly as the C++
cast to `uint32_t` does).  The pluggable `FilterPolicy` is a structure
of two pure functions, mirroring the two virtual methods used by this
file.  `DecodeFixed32` reads with `List.getD _ _ 0`: a read past the
end of the buffer (undefined behaviour in C++, reachable only for
corrupt inputs) yields byte 0.  The right shift `block_offset >>
base_lg_` is modelled as division by `2 ^ base_lg_` (for shift amounts
≥ 64 the C++ is undefined; the division is its mathematical reading).
-/

namespace leveldb

/-- One byte of a byte string.  Values produced by the encoder are < 256;
key bytes are unconstrained `Nat`s since nothing inspects them. -/
abbrev Byte := Nat

/-- The 4 little-endian bytes of `v` cast to `uint32_t`
(util/coding.cc `EncodeFixed32`).  Taking each byte with `/` and `%`
keeps exactly `v % 2^32`, as the C++ cast does. -/
def Enc32 (v : Nat) : List Byte :=
  [v % 256, v / 256 % 256, v / 65536 % 256, v / 16777216 % 256]

/-- util/coding.h `PutFixed32`: append the 4-byte little-endian encoding
of `value` (cast to `uint32_t`) to `dst`. -/
def PutFixed32 (dst : List Byte) (value : Nat) : List Byte :=
  dst ++ Enc32 value

/-- util/coding.h `DecodeFixed32` at byte position `p` of `s`
(little-endian).  Out-of-range reads give 0 (see the file comment). -/
def DecodeFixed32 (s : List Byte) (p : Nat) : Nat :=
  s.getD p 0 + 256 * s.getD (p + 1) 0 + 65536 * s.getD (p + 2) 0
    + 16777216 * s.getD (p + 3) 0

/-- `Slice(s.data() + off, len)`: the `len` bytes of `s` starting at
byte `off`. -/
def sliceList (s : List Byte) (off len : Nat) : List Byte :=
  (s.drop off).take len

/-- `FilterPolicy` (leveldb/filter_policy.h), restricted to the two
virtual methods filter_block.cc calls.  `CreateFilter` yields the bytes
it appends to the result buffer for a key list; `KeyMayMatch` is the
membership probe.  Both are pure functions (the policy contract). -/
structure FilterPolicy where
  CreateFilter : List (List Byte) → List Byte
  KeyMayMatch : List Byte → List Byte → Bool

/-- Generate new filter every 2KB of data: `kFilterBaseLg`. -/
def kFilterBaseLg : Nat := 11

/-- `kFilterBase = 1 << kFilterBaseLg`. -/
def kFilterBase : Nat := 2 ^ kFilterBaseLg

/-- `FilterBlockBuilder`'s four persistent fields (table/filter_block.h).
`tmp_keys_` is scratch storage cleared by every use and is therefore
not part of the state.  `filter_offsets_` is a `vector<uint32_t>` in
C++; it is kept as `Nat`s here and the `uint32_t` truncation happens,
observably equivalently, when the values are byte-encoded by
`PutFixed32` in `Finish`. -/
structure FilterBlockBuilder where
  keys_ : List Byte
  start_ : List Nat
  result_ : List Byte
  filter_offsets_ : List Nat
deriving DecidableEq, Repr

/-- A freshly constructed builder: all buffers empty. -/
def FilterBlockBuilder.init : FilterBlockBuilder := ⟨[], [], [], []⟩

/-- `FilterBlockBuilder::AddKey`: record the key's start offset, then
append its bytes to the flat key buffer. -/
def FilterBlockBuilder.AddKey (b : FilterBlockBuilder) (key : List Byte) :
    FilterBlockBuilder :=
  { b with start_ := b.start_ ++ [b.keys_.length],
           keys_ := b.keys_ ++ key }

/-- The loop in `GenerateFilter` that rebuilds `tmp_keys_` from the flat
buffer: for consecutive entries `a`, `c` of the (sentinel-extended)
start list, take the slice `[a, c)` of `keys_`. -/
def cutKeys (keys : List Byte) : List Nat → List (List Byte)
  | a :: c :: rest => sliceList keys a (c - a) :: cutKeys keys (c :: rest)
  | _ => []

/-- `FilterBlockBuilder::GenerateFilter`.  With no pending keys it only
records the current result size as the next directory entry; otherwise
it records the entry, appends the policy's filter bytes for the pending
keys (reconstructed via the `start_.push_back(keys_.size())` sentinel),
and clears the pending buffers. -/
def FilterBlockBuilder.GenerateFilter (p : FilterPolicy)
    (b : FilterBlockBuilder) : FilterBlockBuilder :=
  if b.start_.length = 0 then
    { b with filter_offsets_ := b.filter_offsets_ ++ [b.result_.length] }
  else
    { keys_ := [], start_ := [],
      result_ := b.result_ ++ p.CreateFilter (cutKeys b.keys_ (b.start_ ++ [b.keys_.length])),
      filter_offsets_ := b.filter_offsets_ ++ [b.result_.length] }

/-- Iterate `GenerateFilter` `n` times. -/
def FilterBlockBuilder.genFilters (p : FilterPolicy)
    (b : FilterBlockBuilder) : Nat → FilterBlockBuilder
  | 0 => b
  | n + 1 => FilterBlockBuilder.genFilters p (b.GenerateFilter p) n

/-- `FilterBlockBuilder::StartBlock`.  The source's
`while (filter_index > filter_offsets_.size()) GenerateFilter();`
executes exactly `filter_index - filter_offsets_.size()` iterations
(each `GenerateFilter` appends exactly one entry to `filter_offsets_`,
see `GenerateFilter_offsets_length`), which is what `genFilters` runs
(`Nat` subtraction gives 0 iterations when the loop guard fails at
once).  The `assert(filter_index >= filter_offsets_.size())` is
debug-only; it appears as a hypothesis of the theorems about
`StartBlock`. -/
def FilterBlockBuilder.StartBlock (p : FilterPolicy)
    (b : FilterBlockBuilder) (block_offset : Nat) : FilterBlockBuilder :=
  b.genFilters p (block_offset / kFilterBase - b.filter_offsets_.length)

/-- The first statement of `FilterBlockBuilder::Finish`:
`if (!start_.empty()) GenerateFilter();`. -/
def FilterBlockBuilder.flushPending (p : FilterPolicy)
    (b : FilterBlockBuilder) : FilterBlockBuilder :=
  if b.start_ ≠ [] then b.GenerateFilter p else b

/-- `FilterBlockBuilder::Finish`: flush pending keys, append the
per-filter offset array, append the array's own start offset, append
the `kFilterBaseLg` byte, and return the whole buffer. -/
def FilterBlockBuilder.Finish (p : FilterPolicy)
    (b : FilterBlockBuilder) : List Byte :=
  let b1 := b.flushPending p
  let array_offset := b1.result_.length
  let r := b1.filter_offsets_.foldl PutFixed32 b1.result_
  PutFixed32 r array_offset ++ [kFilterBaseLg]

/-- `FilterBlockReader`'s fields.  `data_`/`offset_` are pointers into
the contents in C++; here `data_` is the borrowed byte list (empty in
the degraded states where the C++ keeps `nullptr`) and `offset_` the
byte index of the offset array within it. -/
structure FilterBlockReader where
  data_ : List Byte
  offset_ : Nat
  num_ : Nat
  base_lg_ : Nat
deriving DecidableEq, Repr

/-- The `FilterBlockReader` constructor.  The C++ locals `n`,
`base_lg_` and `last_word` are written inline.  Note the C++ assigns
`base_lg_` before validating `last_word`, so the second degraded state
keeps the decoded shift byte while `num_` stays 0. -/
def FilterBlockReader.Construct (contents : List Byte) : FilterBlockReader :=
  if contents.length < 5 then ⟨[], 0, 0, 0⟩
  else if contents.length - 5
      < DecodeFixed32 contents (contents.length - 5) then
    ⟨[], 0, 0, contents.getD (contents.length - 1) 0⟩
  else
    ⟨contents, DecodeFixed32 contents (contents.length - 5),
      (contents.length - 5 - DecodeFixed32 contents (contents.length - 5)) / 4,
      contents.getD (contents.length - 1) 0⟩

/-- The local `index` of `FilterBlockReader::KeyMayMatch`:
`block_offset >> base_lg_`. -/
def bucketIndex (r : FilterBlockReader) (block_offset : Nat) : Nat :=
  block_offset / 2 ^ r.base_lg_

/-- The local `start` of `FilterBlockReader::KeyMayMatch`:
`DecodeFixed32(offset_ + index*4)`. -/
def filterStart (r : FilterBlockReader) (block_offset : Nat) : Nat :=
  DecodeFixed32 r.data_ (r.offset_ + bucketIndex r block_offset * 4)

/-- The local `limit` of `FilterBlockReader::KeyMayMatch`:
`DecodeFixed32(offset_ + index*4 + 4)`. -/
def filterLimit (r : FilterBlockReader) (block_offset : Nat) : Nat :=
  DecodeFixed32 r.data_ (r.offset_ + bucketIndex r block_offset * 4 + 4)

/-- `FilterBlockReader::KeyMayMatch`, its locals hoisted into the three
definitions above.  `offset_ - data_` in the C++ bounds check is the
pointer difference, i.e. `offset_` here. -/
def FilterBlockReader.KeyMayMatch (p : FilterPolicy)
    (r : FilterBlockReader) (block_offset : Nat) (key : List Byte) : Bool :=
  if bucketIndex r block_offset < r.num_ then
    if filterStart r block_offset ≤ filterLimit r block_offset
        ∧ filterLimit r block_offset ≤ r.offset_ then
      p.KeyMayMatch key (sliceList r.data_ (filterStart r block_offset)
        (filterLimit r block_offset - filterStart r block_offset))
    else if filterStart r block_offset = filterLimit r block_offset then
      false
    else
      true
  else
    true

/-- `FilterBlockReader::KeyMayMatch` with the receiver state threaded
explicitly: the same body, returning the answer together with the
reader state after the call (the body contains no assignment to any
field, so every exit path returns the receiver unchanged). -/
def FilterBlockReader.KeyMayMatchSt (p : FilterPolicy)
    (r : FilterBlockReader) (block_offset : Nat) (key : List Byte) :
    Bool × FilterBlockReader :=
  if bucketIndex r block_offset < r.num_ then
    if filterStart r block_offset ≤ filterLimit r block_offset
        ∧ filterLimit r block_offset ≤ r.offset_ then
      (p.KeyMayMatch key (sliceList r.data_ (filterStart r block_offset)
        (filterLimit r block_offset - filterStart r block_offset)), r)
    else if filterStart r block_offset = filterLimit r block_offset then
      (false, r)
    else
      (true, r)
  else
    (true, r)

/-- The builder's externally visible calls between construction and
`Finish`. -/
inductive BuilderCall where
  | addKey (key : List Byte)
  | startBlock (block_offset : Nat)
deriving DecidableEq, Repr

/-- Apply one call to a builder. -/
def applyCall (p : FilterPolicy) (b : FilterBlockBuilder) :
    BuilderCall → FilterBlockBuilder
  | BuilderCall.addKey k => b.AddKey k
  | BuilderCall.startBlock off => b.StartBlock p off

/-- Run a call sequence left to right. -/
def runCalls (p : FilterPolicy) : List BuilderCall → FilterBlockBuilder →
    FilterBlockBuilder
  | [], b => b
  | c :: cs, b => runCalls p cs (applyCall p b c)

/-- The block offsets reported by a call sequence, in order. -/
def blockOffsetsOf : List BuilderCall → List Nat
  | [] => []
  | BuilderCall.addKey _ :: cs => blockOffsetsOf cs
  | BuilderCall.startBlock off :: cs => off :: blockOffsetsOf cs

/-- `true` iff the list is non-decreasing. -/
def nonDecr : List Nat → Bool
  | a :: c :: rest => Nat.ble a c && nonDecr (c :: rest)
  | _ => true

/-- The byte region produced by building with call sequence `cs` from a
fresh builder and finishing. -/
def finishedOutput (p : FilterPolicy) (cs : List BuilderCall) : List Byte :=
  FilterBlockBuilder.Finish p (runCalls p cs FilterBlockBuilder.init)

/-- The directory-start field a reader decodes from `out`. -/
def dirStartOf (out : List Byte) : Nat :=
  DecodeFixed32 out (out.length - 5)

/-- The directory-entry count a reader derives from `out`. -/
def numEntriesOf (out : List Byte) : Nat :=
  (out.length - 5 - dirStartOf out) / 4

/-! ### Abstract builder state

The proofs about whole call sequences go through an abstract view of
the builder: the list of pending keys (not yet covered by a filter)
and the list of closed buckets, each bucket being the key list its
filter was built from.  `concretize` maps this view back onto the four
C++ fields; the step lemmas below show each builder operation tracks
its abstract counterpart. -/

/-- Abstract builder state: pending keys and closed buckets. -/
structure Abs where
  pending : List (List Byte)
  buckets : List (List (List Byte))
deriving DecidableEq, Repr

/-- Abstract `AddKey`. -/
def absAdd (k : List Byte) (s : Abs) : Abs :=
  { s with pending := s.pending ++ [k] }

/-- Abstract `GenerateFilter`: close one bucket holding the pending keys. -/
def absGen (s : Abs) : Abs :=
  ⟨[], s.buckets ++ [s.pending]⟩

/-- Iterated `absGen`. -/
def absGens (s : Abs) : Nat → Abs
  | 0 => s
  | n + 1 => absGens (absGen s) n

/-- Abstract `StartBlock`. -/
def absStart (off : Nat) (s : Abs) : Abs :=
  absGens s (off / kFilterBase - s.buckets.length)

/-- Abstract `applyCall`. -/
def absApply (s : Abs) : BuilderCall → Abs
  | BuilderCall.addKey k => absAdd k s
  | BuilderCall.startBlock off => absStart off s

/-- Abstract `runCalls`. -/
def absRun : List BuilderCall → Abs → Abs
  | [], s => s
  | c :: cs, s => absRun cs (absApply s c)

/-- Abstract flush at `Finish` time. -/
def absFlush (s : Abs) : Abs :=
  if s.pending ≠ [] then absGen s else s

/-- The bucket list the whole run `cs`-then-`Finish` closes. -/
def finalBuckets (cs : List BuilderCall) : List (List (List Byte)) :=
  (absFlush (absRun cs ⟨[], []⟩)).buckets

/-- The filter bytes one closed bucket contributes to the result
buffer: nothing for an empty bucket, the policy's filter otherwise. -/
def chunkOf (p : FilterPolicy) (ks : List (List Byte)) : List Byte :=
  if ks = [] then [] else p.CreateFilter ks

/-- Per-bucket filter byte chunks. -/
def chunksOf (p : FilterPolicy) (buckets : List (List (List Byte))) :
    List (List Byte) :=
  buckets.map (chunkOf p)

/-- Start offsets of the elements of `l` inside `l.flatten`, shifted by
`acc`.  Instantiated both at the pending-key buffer (`start_`) and at
the filter chunks (`filter_offsets_`). -/
def startsFrom (l : List (List Byte)) (acc : Nat) : List Nat :=
  match l with
  | [] => []
  | x :: xs => acc :: startsFrom xs (acc + x.length)

/-- `startsFrom` with the end-of-buffer sentinel appended. -/
def fullStarts (l : List (List Byte)) (acc : Nat) : List Nat :=
  match l with
  | [] => [acc]
  | x :: xs => acc :: fullStarts xs (acc + x.length)

/-- Total byte length of the first `i` elements of `l`. -/
def partialLen (l : List (List Byte)) (i : Nat) : Nat :=
  ((l.take i).flatten).length

/-- The four C++ fields determined by an abstract state. -/
def concretize (p : FilterPolicy) (s : Abs) : FilterBlockBuilder :=
  ⟨s.pending.flatten, startsFrom s.pending 0,
    (chunksOf p s.buckets).flatten, startsFrom (chunksOf p s.buckets) 0⟩

/-- The byte region `Finish` produces once the closed-bucket list is
`buckets`: filter chunks, offset array, array start, shift byte. -/
def outOf (p : FilterPolicy) (buckets : List (List (List Byte))) :
    List Byte :=
  (chunksOf p buckets).flatten
    ++ ((startsFrom (chunksOf p buckets) 0).map Enc32).flatten
    ++ Enc32 (chunksOf p buckets).flatten.length
    ++ [kFilterBaseLg]

/-- `k` was added while bucket `b` was pending: either bucket `b` is
still open and `k` is among the pending keys, or bucket `b` is closed
and `k` is in its key list. -/
def tracksKey (k : List Byte) (b : Nat) (s : Abs) : Prop :=
  (s.buckets.length = b ∧ k ∈ s.pending)
    ∨ (b < s.buckets.length ∧ k ∈ s.buckets.getD b [])

/-! ### Concrete policies used by witnesses and counterexamples -/

/-- A legal policy that stores nothing and answers `true` always — it
never returns `false` at all, so in particular never for a present
key. -/
def pAlwaysTrue : FilterPolicy := ⟨fun _ => [], fun _ _ => true⟩

/-- A legal policy emitting the one-byte filter `[1]` and answering
`true` always. -/
def pMarkOne : FilterPolicy := ⟨fun _ => [1], fun _ _ => true⟩

/-- A legal policy emitting the one-byte filter `[1]` and matching
exactly the non-empty filters: it answers `true` on every filter it
ever created (they all equal `[1]`), and `false` on the empty filter,
as leveldb's bloom policy does for too-short filters. -/
def pNonEmptyProbe : FilterPolicy := ⟨fun _ => [1], fun _ f => !f.isEmpty⟩

/-- A legal policy whose filter for any key set is 2^32 zero bytes, and
which matches exactly the non-empty filters: it answers `true` on
every filter it ever created, and `false` on the empty filter.  Its
filters overflow the format's `uint32_t` offsets, which is what the
overflow counterexamples exercise. -/
def pHugeFilter : FilterPolicy :=
  ⟨fun _ => List.replicate 4294967296 0, fun _ f => !f.isEmpty⟩

/-! ### Byte-encoding lemmas -/

theorem Enc32_length (v : Nat) : (Enc32 v).length = 4 := rfl

theorem DecodeFixed32_Enc32 (v : Nat) (t : List Byte) :
    DecodeFixed32 (Enc32 v ++ t) 0 = v % 4294967296 := by
  simp only [Enc32, DecodeFixed32, List.cons_append, List.nil_append,
    List.getD_cons_zero, List.getD_cons_succ]
  omega

theorem getD_append_add (s u : List Byte) (p : Nat) :
    (s ++ u).getD (s.length + p) 0 = u.getD p 0 := by
  rw [List.getD_append_right _ _ _ _ (Nat.le_add_right _ _)]
  congr 1
  omega

theorem DecodeFixed32_append (s u : List Byte) (p : Nat) :
    DecodeFixed32 (s ++ u) (s.length + p) = DecodeFixed32 u p := by
  unfold DecodeFixed32
  rw [show s.length + p + 1 = s.length + (p + 1) by omega,
    show s.length + p + 2 = s.length + (p + 2) by omega,
    show s.length + p + 3 = s.length + (p + 3) by omega,
    getD_append_add, getD_append_add, getD_append_add, getD_append_add]

theorem DecodeFixed32_append_ge (s u : List Byte) (p : Nat)
    (h : s.length ≤ p) :
    DecodeFixed32 (s ++ u) p = DecodeFixed32 u (p - s.length) := by
  conv_lhs => rw [show p = s.length + (p - s.length) from by omega]
  rw [DecodeFixed32_append]

theorem getD_append_last (s : List Byte) (x : Byte) :
    (s ++ [x]).getD s.length 0 = x := by
  rw [List.getD_append_right _ _ _ _ (Nat.le_refl _)]
  simp

theorem foldl_PutFixed32 (l : List Nat) (acc : List Byte) :
    l.foldl PutFixed32 acc = acc ++ (l.map Enc32).flatten := by
  induction l generalizing acc with
  | nil => simp
  | cons a rest ih =>
      simp only [List.foldl_cons, List.map_cons, List.flatten_cons, ih,
        PutFixed32, List.append_assoc]

theorem flatten_map_Enc32_length (l : List Nat) :
    ((l.map Enc32).flatten).length = 4 * l.length := by
  induction l with
  | nil => rfl
  | cons a rest ih =>
      simp only [List.map_cons, List.flatten_cons, List.length_append,
        Enc32_length, ih, List.length_cons]
      omega

theorem DecodeFixed32_encList (l : List Nat) (t : List Byte) (i : Nat)
    (hi : i < l.length) :
    DecodeFixed32 ((l.map Enc32).flatten ++ t) (4 * i)
      = l.getD i 0 % 4294967296 := by
  induction l generalizing i t with
  | nil => exact absurd hi (by simp)
  | cons a rest ih =>
      cases i with
      | zero =>
          simpa [List.append_assoc] using
            DecodeFixed32_Enc32 a ((rest.map Enc32).flatten ++ t)
      | succ i =>
          have h4 : 4 * (i + 1) = (Enc32 a).length + 4 * i := by
            simp [Enc32_length]; omega
          simp only [List.map_cons, List.flatten_cons, List.append_assoc, h4,
            DecodeFixed32_append]
          exact ih t i (by simpa using hi)

/-! ### Builder bookkeeping lemmas -/

theorem GenerateFilter_offsets_length (p : FilterPolicy)
    (b : FilterBlockBuilder) :
    (b.GenerateFilter p).filter_offsets_.length
      = b.filter_offsets_.length + 1 := by
  unfold FilterBlockBuilder.GenerateFilter
  split <;> simp

theorem GenerateFilter_offsets_append (p : FilterPolicy)
    (b : FilterBlockBuilder) :
    (b.GenerateFilter p).filter_offsets_
      = b.filter_offsets_ ++ [b.result_.length] := by
  unfold FilterBlockBuilder.GenerateFilter
  split <;> rfl

theorem genFilters_offsets_length (p : FilterPolicy)
    (b : FilterBlockBuilder) (n : Nat) :
    (b.genFilters p n).filter_offsets_.length
      = b.filter_offsets_.length + n := by
  induction n generalizing b with
  | zero => rfl
  | succ n ih =>
      simp only [FilterBlockBuilder.genFilters, ih,
        GenerateFilter_offsets_length]
      omega

theorem genFilters_offsets_take (p : FilterPolicy)
    (b : FilterBlockBuilder) (n : Nat) :
    (b.genFilters p n).filter_offsets_.take b.filter_offsets_.length
      = b.filter_offsets_ := by
  induction n generalizing b with
  | zero => exact List.take_length b.filter_offsets_
  | succ n ih =>
      have h1 := ih (b.GenerateFilter p)
      have h2 : (b.genFilters p (n + 1)).filter_offsets_
          = ((b.GenerateFilter p).genFilters p n).filter_offsets_ := rfl
      rw [h2, show b.filter_offsets_.length
          = min b.filter_offsets_.length
              (b.GenerateFilter p).filter_offsets_.length by
        rw [GenerateFilter_offsets_length]; omega,
        ← List.take_take, h1, GenerateFilter_offsets_append]
      exact List.take_left' rfl

/-! ### `startsFrom` / `partialLen` lemmas -/

theorem startsFrom_length (l : List (List Byte)) (acc : Nat) :
    (startsFrom l acc).length = l.length := by
  induction l generalizing acc with
  | nil => rfl
  | cons x xs ih => simp [startsFrom, ih]

theorem startsFrom_eq_nil_iff (l : List (List Byte)) (acc : Nat) :
    startsFrom l acc = [] ↔ l = [] := by
  cases l <;> simp [startsFrom]

theorem partialLen_zero (l : List (List Byte)) : partialLen l 0 = 0 := rfl

theorem partialLen_cons_succ (x : List Byte) (xs : List (List Byte))
    (i : Nat) :
    partialLen (x :: xs) (i + 1) = x.length + partialLen xs i := by
  simp [partialLen, List.take_succ_cons]

theorem partialLen_succ (l : List (List Byte)) (i : Nat)
    (hi : i < l.length) :
    partialLen l (i + 1) = partialLen l i + (l.getD i []).length := by
  induction l generalizing i with
  | nil => exact absurd hi (by simp)
  | cons x xs ih =>
      cases i with
      | zero => simp [partialLen_cons_succ, partialLen_zero]
      | succ i =>
          rw [partialLen_cons_succ, ih i (by simpa using hi),
            partialLen_cons_succ]
          simp [Nat.add_assoc]

theorem partialLen_mono (l : List (List Byte)) {i j : Nat} (h : i ≤ j) :
    partialLen l i ≤ partialLen l j := by
  induction l generalizing i j with
  | nil => simp [partialLen]
  | cons x xs ih =>
      cases i with
      | zero => simp [partialLen_zero]
      | succ i =>
          cases j with
          | zero => omega
          | succ j =>
              rw [partialLen_cons_succ, partialLen_cons_succ]
              exact Nat.add_le_add_left (ih (by omega)) _

theorem partialLen_le_total (l : List (List Byte)) (i : Nat) :
    partialLen l i ≤ l.flatten.length := by
  conv_rhs => rw [← List.take_append_drop i l]
  rw [List.flatten_append, List.length_append]
  exact Nat.le_add_right _ _

theorem partialLen_full (l : List (List Byte)) :
    partialLen l l.length = l.flatten.length := by
  simp [partialLen, List.take_length]

theorem startsFrom_getD (l : List (List Byte)) (acc i : Nat)
    (hi : i < l.length) :
    (startsFrom l acc).getD i 0 = acc + partialLen l i := by
  induction l generalizing acc i with
  | nil => exact absurd hi (by simp)
  | cons x xs ih =>
      cases i with
      | zero => simp [startsFrom, partialLen_zero]
      | succ i =>
          simp only [startsFrom, List.getD_cons_succ, partialLen_cons_succ]
          rw [ih (acc + x.length) i (by simpa using hi)]
          omega

theorem startsFrom_append_single (l : List (List Byte)) (k : List Byte)
    (acc : Nat) :
    startsFrom (l ++ [k]) acc
      = startsFrom l acc ++ [acc + l.flatten.length] := by
  induction l generalizing acc with
  | nil => simp [startsFrom]
  | cons x xs ih =>
      simp only [List.cons_append, startsFrom, List.append_eq]
      rw [ih]
      simp only [List.flatten_cons, List.length_append, Nat.add_assoc]

theorem startsFrom_sentinel (l : List (List Byte)) (acc : Nat) :
    startsFrom l acc ++ [acc + l.flatten.length] = fullStarts l acc := by
  induction l generalizing acc with
  | nil => simp [startsFrom, fullStarts]
  | cons x xs ih =>
      simp only [startsFrom, fullStarts, List.cons_append, List.cons.injEq,
        true_and]
      rw [← ih (acc + x.length), List.flatten_cons, List.length_append,
        Nat.add_assoc]

theorem cutKeys_fullStarts (P : List (List Byte)) (pre : List Byte) :
    cutKeys (pre ++ P.flatten) (fullStarts P pre.length) = P := by
  induction P generalizing pre with
  | nil => rfl
  | cons K rest ih =>
      have hslice : sliceList (pre ++ (K :: rest).flatten) pre.length
          (pre.length + K.length - pre.length) = K := by
        rw [show pre.length + K.length - pre.length = K.length by omega]
        unfold sliceList
        rw [List.flatten_cons, List.drop_left, List.take_left]
      have hbuf : pre ++ (K :: rest).flatten
          = (pre ++ K) ++ rest.flatten := by
        rw [List.flatten_cons, List.append_assoc]
      have hlen : pre.length + K.length = (pre ++ K).length := by
        simp
      cases rest with
      | nil =>
          simp only [fullStarts, cutKeys, hslice]
      | cons R rest' =>
          simp only [fullStarts, cutKeys, hslice, List.cons.injEq, true_and]
          have := ih (pre ++ K)
          rw [hbuf, hlen]
          simpa [fullStarts] using this

/-! ### Step lemmas: each builder operation tracks its abstract
counterpart through `concretize` -/

theorem concretize_init (p : FilterPolicy) :
    FilterBlockBuilder.init = concretize p ⟨[], []⟩ := rfl

theorem AddKey_concretize (p : FilterPolicy) (s : Abs) (k : List Byte) :
    (concretize p s).AddKey k = concretize p (absAdd k s) := by
  unfold FilterBlockBuilder.AddKey concretize absAdd
  simp [startsFrom_append_single]

theorem concretize_start_length (p : FilterPolicy) (s : Abs) :
    (concretize p s).start_.length = s.pending.length := by
  simp [concretize, startsFrom_length]

theorem concretize_offsets_length (p : FilterPolicy) (s : Abs) :
    (concretize p s).filter_offsets_.length = s.buckets.length := by
  simp [concretize, startsFrom_length, chunksOf]

theorem GenerateFilter_concretize (p : FilterPolicy) (s : Abs) :
    (concretize p s).GenerateFilter p = concretize p (absGen s) := by
  by_cases h : s.pending = []
  · unfold FilterBlockBuilder.GenerateFilter
    rw [if_pos (by simp [concretize_start_length, h])]
    unfold concretize absGen chunksOf
    rw [h]
    simp [chunkOf, startsFrom_append_single, List.map_append]
  · unfold FilterBlockBuilder.GenerateFilter
    rw [if_neg (by simp [concretize_start_length, h])]
    have hcut : cutKeys (concretize p s).keys_
        ((concretize p s).start_ ++ [(concretize p s).keys_.length])
        = s.pending := by
      show cutKeys s.pending.flatten
        (startsFrom s.pending 0 ++ [s.pending.flatten.length]) = s.pending
      have h0 : startsFrom s.pending 0 ++ [s.pending.flatten.length]
          = fullStarts s.pending 0 := by
        simpa using startsFrom_sentinel s.pending 0
      rw [h0]
      simpa using cutKeys_fullStarts s.pending []
    rw [hcut]
    unfold concretize absGen chunksOf
    simp [chunkOf, h, startsFrom_append_single, List.map_append, startsFrom]

theorem genFilters_concretize (p : FilterPolicy) (s : Abs) (n : Nat) :
    (concretize p s).genFilters p n = concretize p (absGens s n) := by
  induction n generalizing s with
  | zero => rfl
  | succ n ih =>
      show ((concretize p s).GenerateFilter p).genFilters p n
        = concretize p (absGens (absGen s) n)
      rw [GenerateFilter_concretize, ih]

theorem StartBlock_concretize (p : FilterPolicy) (s : Abs) (off : Nat) :
    (concretize p s).StartBlock p off = concretize p (absStart off s) := by
  unfold FilterBlockBuilder.StartBlock absStart
  rw [concretize_offsets_length, genFilters_concretize]

theorem runCalls_concretize (p : FilterPolicy) (cs : List BuilderCall)
    (s : Abs) :
    runCalls p cs (concretize p s) = concretize p (absRun cs s) := by
  induction cs generalizing s with
  | nil => rfl
  | cons c cs ih =>
      cases c with
      | addKey k =>
          show runCalls p cs ((concretize p s).AddKey k)
            = concretize p (absRun cs (absAdd k s))
          rw [AddKey_concretize, ih]
      | startBlock off =>
          show runCalls p cs ((concretize p s).StartBlock p off)
            = concretize p (absRun cs (absStart off s))
          rw [StartBlock_concretize, ih]

theorem runCalls_init (p : FilterPolicy) (cs : List BuilderCall) :
    runCalls p cs FilterBlockBuilder.init
      = concretize p (absRun cs ⟨[], []⟩) := by
  rw [concretize_init p, runCalls_concretize]

theorem flushPending_concretize (p : FilterPolicy) (s : Abs) :
    (concretize p s).flushPending p = concretize p (absFlush s) := by
  unfold FilterBlockBuilder.flushPending absFlush
  by_cases h : s.pending = []
  · rw [if_neg (by simp [concretize, startsFrom_eq_nil_iff, h]),
      if_neg (by simp [h])]
  · rw [if_pos (by simp [concretize, startsFrom_eq_nil_iff, h]),
      if_pos (by simp [h]), GenerateFilter_concretize]

theorem Finish_concretize (p : FilterPolicy) (s : Abs) :
    (concretize p s).Finish p = outOf p (absFlush s).buckets := by
  unfold FilterBlockBuilder.Finish
  rw [flushPending_concretize]
  show PutFixed32
      ((concretize p (absFlush s)).filter_offsets_.foldl PutFixed32
        (concretize p (absFlush s)).result_)
      (concretize p (absFlush s)).result_.length ++ [kFilterBaseLg]
    = outOf p (absFlush s).buckets
  rw [foldl_PutFixed32]
  unfold concretize outOf PutFixed32
  simp [List.append_assoc]

theorem finishedOutput_eq_outOf (p : FilterPolicy) (cs : List BuilderCall) :
    finishedOutput p cs = outOf p (finalBuckets cs) := by
  unfold finishedOutput finalBuckets
  rw [runCalls_init, Finish_concretize]

/-! ### Reader lemmas about the finished region -/

theorem outOf_length (p : FilterPolicy) (buckets : List (List (List Byte))) :
    (outOf p buckets).length
      = (chunksOf p buckets).flatten.length + 4 * buckets.length + 5 := by
  unfold outOf
  rw [List.length_append, List.length_append, List.length_append,
    flatten_map_Enc32_length, startsFrom_length,
    show (chunksOf p buckets).length = buckets.length by simp [chunksOf]]
  simp only [Enc32_length, List.length_singleton]

theorem outOf_getD_last (p : FilterPolicy)
    (buckets : List (List (List Byte))) :
    (outOf p buckets).getD ((outOf p buckets).length - 1) 0
      = kFilterBaseLg := by
  have h : outOf p buckets
      = ((chunksOf p buckets).flatten
          ++ ((startsFrom (chunksOf p buckets) 0).map Enc32).flatten
          ++ Enc32 (chunksOf p buckets).flatten.length) ++ [kFilterBaseLg] := by
    unfold outOf
    simp [List.append_assoc]
  rw [h, List.length_append]
  simp only [List.length_singleton, Nat.add_sub_cancel]
  exact getD_append_last _ _

theorem decode_outOf_dir (p : FilterPolicy)
    (buckets : List (List (List Byte))) (i : Nat)
    (hi : i ≤ buckets.length)
    (hsz : (chunksOf p buckets).flatten.length < 4294967296) :
    DecodeFixed32 (outOf p buckets)
        ((chunksOf p buckets).flatten.length + 4 * i)
      = partialLen (chunksOf p buckets) i := by
  have hlen : (chunksOf p buckets).length = buckets.length := by
    simp [chunksOf]
  rcases Nat.lt_or_ge i buckets.length with hlt | hge
  · have h1 : DecodeFixed32 (outOf p buckets)
        ((chunksOf p buckets).flatten.length + 4 * i)
        = DecodeFixed32
            (((startsFrom (chunksOf p buckets) 0).map Enc32).flatten
              ++ (Enc32 (chunksOf p buckets).flatten.length
                    ++ [kFilterBaseLg])) (4 * i) := by
      have hassoc : outOf p buckets
          = (chunksOf p buckets).flatten
            ++ (((startsFrom (chunksOf p buckets) 0).map Enc32).flatten
              ++ (Enc32 (chunksOf p buckets).flatten.length
                    ++ [kFilterBaseLg])) := by
        unfold outOf
        simp [List.append_assoc]
      rw [hassoc, DecodeFixed32_append]
    rw [h1, DecodeFixed32_encList _ _ i
        (by rw [startsFrom_length, hlen]; exact hlt),
      startsFrom_getD _ _ _ (by rw [hlen]; exact hlt)]
    have hle : partialLen (chunksOf p buckets) i
        ≤ (chunksOf p buckets).flatten.length := partialLen_le_total _ _
    rw [Nat.zero_add, Nat.mod_eq_of_lt (by omega)]
  · have hin : i = buckets.length := by omega
    subst hin
    have h2 : (chunksOf p buckets).flatten.length + 4 * buckets.length
        = ((chunksOf p buckets).flatten
            ++ ((startsFrom (chunksOf p buckets) 0).map Enc32).flatten).length
          + 0 := by
      rw [List.length_append, flatten_map_Enc32_length, startsFrom_length,
        hlen]
      omega
    have h3 : outOf p buckets
        = ((chunksOf p buckets).flatten
            ++ ((startsFrom (chunksOf p buckets) 0).map Enc32).flatten)
          ++ (Enc32 (chunksOf p buckets).flatten.length
                ++ [kFilterBaseLg]) := by
      unfold outOf
      simp [List.append_assoc]
    rw [h3, h2, DecodeFixed32_append, DecodeFixed32_Enc32,
      Nat.mod_eq_of_lt hsz, ← hlen, partialLen_full]

theorem Construct_outOf (p : FilterPolicy)
    (buckets : List (List (List Byte)))
    (hsz : (chunksOf p buckets).flatten.length < 4294967296) :
    FilterBlockReader.Construct (outOf p buckets)
      = ⟨outOf p buckets, (chunksOf p buckets).flatten.length,
          buckets.length, kFilterBaseLg⟩ := by
  have hlen := outOf_length p buckets
  have hlast := decode_outOf_dir p buckets buckets.length (Nat.le_refl _) hsz
  have hpl : partialLen (chunksOf p buckets) buckets.length
      = (chunksOf p buckets).flatten.length := by
    rw [show buckets.length = (chunksOf p buckets).length by simp [chunksOf]]
    exact partialLen_full _
  unfold FilterBlockReader.Construct
  rw [if_neg (by omega)]
  have hpos : (outOf p buckets).length - 5
      = (chunksOf p buckets).flatten.length + 4 * buckets.length := by
    omega
  rw [hpos, hlast, hpl, if_neg (by omega), outOf_getD_last]
  congr 1
  omega

theorem sliceList_append_of_le (F t : List Byte) (start len : Nat)
    (h : start + len ≤ F.length) :
    sliceList (F ++ t) start len = sliceList F start len := by
  unfold sliceList
  rw [List.drop_append_eq_append_drop,
    show start - F.length = 0 by omega, List.drop_zero,
    List.take_append_eq_append_take,
    show len - (F.drop start).length = 0 by
      rw [List.length_drop]; omega,
    List.take_zero, List.append_nil]

theorem sliceList_flatten_chunk (l : List (List Byte)) (i : Nat)
    (hi : i < l.length) :
    sliceList l.flatten (partialLen l i) (l.getD i []).length
      = l.getD i [] := by
  induction l generalizing i with
  | nil => exact absurd hi (by simp)
  | cons x xs ih =>
      cases i with
      | zero =>
          unfold sliceList
          simp only [partialLen_zero, List.flatten_cons, List.drop_zero,
            List.getD_cons_zero]
          exact List.take_left x xs.flatten
      | succ i =>
          have h1 : partialLen (x :: xs) (i + 1)
              = x.length + partialLen xs i := partialLen_cons_succ x xs i
          unfold sliceList
          rw [h1, List.flatten_cons, List.drop_append_eq_append_drop,
            show x.length + partialLen xs i - x.length = partialLen xs i
              by omega,
            List.drop_eq_nil_of_le (by omega), List.nil_append,
            List.getD_cons_succ]
          exact ih i (by simpa using hi)

theorem getD_map_chunkOf (p : FilterPolicy)
    (buckets : List (List (List Byte))) (i : Nat)
    (hi : i < buckets.length) :
    (chunksOf p buckets).getD i [] = chunkOf p (buckets.getD i []) := by
  unfold chunksOf
  induction buckets generalizing i with
  | nil => exact absurd hi (by simp)
  | cons x xs ih =>
      cases i with
      | zero => simp
      | succ i => simpa using ih i (by simpa using hi)

theorem outOf_assoc (p : FilterPolicy) (buckets : List (List (List Byte))) :
    outOf p buckets
      = (chunksOf p buckets).flatten
        ++ (((startsFrom (chunksOf p buckets) 0).map Enc32).flatten
          ++ (Enc32 (chunksOf p buckets).flatten.length
            ++ [kFilterBaseLg])) := by
  unfold outOf
  simp [List.append_assoc]

/-! ### Tracking one added key through a run -/

theorem getD_append_length_poly {α : Type} (s : List α) (x d : α) :
    (s ++ [x]).getD s.length d = x := by
  rw [List.getD_append_right _ _ _ _ (Nat.le_refl _)]
  simp

theorem tracksKey_absGen {k : List Byte} {b : Nat} {s : Abs}
    (h : tracksKey k b s) : tracksKey k b (absGen s) := by
  rcases h with ⟨hlen, hmem⟩ | ⟨hlt, hmem⟩
  · right
    refine ⟨by simp [absGen]; omega, ?_⟩
    show k ∈ (s.buckets ++ [s.pending]).getD b []
    rw [← hlen, getD_append_length_poly]
    exact hmem
  · right
    refine ⟨by simp [absGen]; omega, ?_⟩
    show k ∈ (s.buckets ++ [s.pending]).getD b []
    rw [List.getD_append _ _ _ _ hlt]
    exact hmem

theorem tracksKey_absGens {k : List Byte} {b : Nat} {s : Abs} (n : Nat)
    (h : tracksKey k b s) : tracksKey k b (absGens s n) := by
  induction n generalizing s with
  | zero => exact h
  | succ n ih => exact ih (tracksKey_absGen h)

theorem tracksKey_absApply {k : List Byte} {b : Nat} {s : Abs}
    (c : BuilderCall) (h : tracksKey k b s) :
    tracksKey k b (absApply s c) := by
  cases c with
  | addKey k' =>
      rcases h with ⟨hlen, hmem⟩ | ⟨hlt, hmem⟩
      · exact Or.inl ⟨hlen, by simp [absApply, absAdd, hmem]⟩
      · exact Or.inr ⟨hlt, hmem⟩
  | startBlock off => exact tracksKey_absGens _ h

theorem tracksKey_absRun {k : List Byte} {b : Nat} {s : Abs}
    (cs : List BuilderCall) (h : tracksKey k b s) :
    tracksKey k b (absRun cs s) := by
  induction cs generalizing s with
  | nil => exact h
  | cons c cs ih => exact ih (tracksKey_absApply c h)

theorem tracksKey_absFlush {k : List Byte} {b : Nat} {s : Abs}
    (h : tracksKey k b s) :
    b < (absFlush s).buckets.length ∧ k ∈ (absFlush s).buckets.getD b [] := by
  unfold absFlush
  rcases h with ⟨hlen, hmem⟩ | ⟨hlt, hmem⟩
  · rw [if_pos (List.ne_nil_of_mem hmem)]
    refine ⟨by simp [absGen]; omega, ?_⟩
    show k ∈ (s.buckets ++ [s.pending]).getD b []
    rw [← hlen, getD_append_length_poly]
    exact hmem
  · split
    · refine ⟨by simp [absGen]; omega, ?_⟩
      show k ∈ (s.buckets ++ [s.pending]).getD b []
      rw [List.getD_append _ _ _ _ hlt]
      exact hmem
    · exact ⟨hlt, hmem⟩

theorem absRun_append (l₁ l₂ : List BuilderCall) (s : Abs) :
    absRun (l₁ ++ l₂) s = absRun l₂ (absRun l₁ s) := by
  induction l₁ generalizing s with
  | nil => rfl
  | cons c l₁ ih => exact ih (absApply s c)

/-! ### Claim theorems -/

/-- **C1** — No false negatives round-trip: for every sequence of
`AddKey`/`StartBlock` calls with non-decreasing block offsets followed
by one `Finish`, and every key `k` added while bucket `b` was the
pending bucket (i.e. while `filter_offsets_.size()` was `b`), a reader
constructed from the `Finish` output answers `true` from `KeyMayMatch`
at every file offset whose bucket index is `b` — given that the
policy's `KeyMayMatch` never rejects a key that was in the set passed
to `CreateFilter`, and that the finished region fits the 4-byte offset
format (length below 2^32). -/
theorem noFalseNegatives_roundTrip (p : FilterPolicy)
    (cs cs₁ cs₂ : List BuilderCall) (k : List Byte) (b fileOffset : Nat)
    (hsplit : cs = cs₁ ++ BuilderCall.addKey k :: cs₂)
    (hb : (runCalls p cs₁ FilterBlockBuilder.init).filter_offsets_.length = b)
    (_hmono : nonDecr (blockOffsetsOf cs) = true)
    (hpol : ∀ ks key, key ∈ ks → p.KeyMayMatch key (p.CreateFilter ks) = true)
    (hsz : (finishedOutput p cs).length < 4294967296)
    (hoff : fileOffset / 2 ^ kFilterBaseLg = b) :
    (FilterBlockReader.Construct (finishedOutput p cs)).KeyMayMatch p
      fileOffset k = true := by
  have houtlen := outOf_length p (finalBuckets cs)
  rw [finishedOutput_eq_outOf] at hsz
  have hF : (chunksOf p (finalBuckets cs)).flatten.length < 4294967296 := by
    omega
  have hb' : (absRun cs₁ ⟨[], []⟩).buckets.length = b := by
    rw [runCalls_init, concretize_offsets_length] at hb
    exact hb
  have htrack : b < (finalBuckets cs).length
      ∧ k ∈ (finalBuckets cs).getD b [] := by
    unfold finalBuckets
    rw [hsplit, absRun_append]
    apply tracksKey_absFlush
    show tracksKey k b
      (absRun cs₂ (absApply (absRun cs₁ ⟨[], []⟩) (BuilderCall.addKey k)))
    apply tracksKey_absRun
    exact Or.inl ⟨hb', by simp [absApply, absAdd]⟩
  obtain ⟨hbn, hkmem⟩ := htrack
  have hchlen : (chunksOf p (finalBuckets cs)).length
      = (finalBuckets cs).length := by simp [chunksOf]
  have hblt : b < (chunksOf p (finalBuckets cs)).length := by
    rw [hchlen]; exact hbn
  rw [finishedOutput_eq_outOf, Construct_outOf p (finalBuckets cs) hF]
  have hstart : filterStart
      ⟨outOf p (finalBuckets cs),
        (chunksOf p (finalBuckets cs)).flatten.length,
        (finalBuckets cs).length, kFilterBaseLg⟩ fileOffset
      = partialLen (chunksOf p (finalBuckets cs)) b := by
    simp only [filterStart, bucketIndex]
    rw [show (chunksOf p (finalBuckets cs)).flatten.length
          + fileOffset / 2 ^ kFilterBaseLg * 4
        = (chunksOf p (finalBuckets cs)).flatten.length + 4 * b by
      rw [hoff]; ring]
    exact decode_outOf_dir p (finalBuckets cs) b (by omega) hF
  have hlimit : filterLimit
      ⟨outOf p (finalBuckets cs),
        (chunksOf p (finalBuckets cs)).flatten.length,
        (finalBuckets cs).length, kFilterBaseLg⟩ fileOffset
      = partialLen (chunksOf p (finalBuckets cs)) (b + 1) := by
    simp only [filterLimit, bucketIndex]
    rw [show (chunksOf p (finalBuckets cs)).flatten.length
          + fileOffset / 2 ^ kFilterBaseLg * 4 + 4
        = (chunksOf p (finalBuckets cs)).flatten.length + 4 * (b + 1) by
      rw [hoff]; ring]
    exact decode_outOf_dir p (finalBuckets cs) (b + 1) (by omega) hF
  unfold FilterBlockReader.KeyMayMatch
  rw [hstart, hlimit]
  rw [if_pos (show bucketIndex _ fileOffset < _ from by
    simpa [bucketIndex, hoff] using hbn)]
  rw [if_pos ⟨partialLen_mono _ (Nat.le_succ b),
    show partialLen (chunksOf p (finalBuckets cs)) (b + 1)
        ≤ (chunksOf p (finalBuckets cs)).flatten.length from
      partialLen_le_total _ _⟩]
  have hdiff : partialLen (chunksOf p (finalBuckets cs)) (b + 1)
      - partialLen (chunksOf p (finalBuckets cs)) b
      = ((chunksOf p (finalBuckets cs)).getD b []).length := by
    rw [partialLen_succ _ _ hblt]
    omega
  rw [hdiff]
  have hsliceout : sliceList (outOf p (finalBuckets cs))
      (partialLen (chunksOf p (finalBuckets cs)) b)
      ((chunksOf p (finalBuckets cs)).getD b []).length
      = (chunksOf p (finalBuckets cs)).getD b [] := by
    rw [outOf_assoc, sliceList_append_of_le _ _ _ _
      (by rw [← partialLen_succ _ _ hblt]; exact partialLen_le_total _ _)]
    exact sliceList_flatten_chunk _ b hblt
  rw [hsliceout, getD_map_chunkOf p (finalBuckets cs) b hbn]
  have hne : (finalBuckets cs).getD b [] ≠ [] := by
    intro hnil
    rw [hnil] at hkmem
    exact absurd hkmem (List.not_mem_nil k)
  rw [show chunkOf p ((finalBuckets cs).getD b [])
      = p.CreateFilter ((finalBuckets cs).getD b []) from by
    unfold chunkOf; rw [if_neg hne]]
  exact hpol _ k hkmem

/-- Witness for `noFalseNegatives_roundTrip`: one key `[7]` added to
bucket 0, queried at file offset 0, with the trivially legal policy
`pMarkOne`. -/
theorem noFalseNegatives_roundTrip_witness :
    nonDecr (blockOffsetsOf [BuilderCall.addKey [7]]) = true
      ∧ (finishedOutput pMarkOne [BuilderCall.addKey [7]]).length < 4294967296
      ∧ (FilterBlockReader.Construct
            (finishedOutput pMarkOne [BuilderCall.addKey [7]])).KeyMayMatch
          pMarkOne 0 [7] = true :=
  ⟨by decide, by decide,
    noFalseNegatives_roundTrip pMarkOne [BuilderCall.addKey [7]] [] [] [7] 0 0
      rfl rfl (by decide) (fun _ _ _ => rfl) (by decide) (by decide)⟩

/-- **C2** — Fail-open on malformed footer: a buffer shorter than 5
bytes, or whose 4-byte directory-start field read at `length - 5`
exceeds `length - 5`, constructs (without any error — construction is
total) the degraded reader with `num_ = 0`, whose `KeyMayMatch` is
`true` for every file offset and key. -/
theorem failOpen_malformedFooter (c : List Byte) (p : FilterPolicy)
    (off : Nat) (k : List Byte)
    (h : c.length < 5 ∨ c.length - 5 < DecodeFixed32 c (c.length - 5)) :
    (FilterBlockReader.Construct c).num_ = 0
      ∧ (FilterBlockReader.Construct c).KeyMayMatch p off k = true := by
  have hnum : (FilterBlockReader.Construct c).num_ = 0 := by
    unfold FilterBlockReader.Construct
    rcases h with h | h
    · rw [if_pos h]
    · by_cases h5 : c.length < 5
      · rw [if_pos h5]
      · rw [if_neg h5, if_pos h]
  refine ⟨hnum, ?_⟩
  unfold FilterBlockReader.KeyMayMatch
  rw [hnum, if_neg (Nat.not_lt_zero _)]

/-- Witness for `failOpen_malformedFooter`: the 3-byte buffer
`[9, 9, 9]`. -/
theorem failOpen_malformedFooter_witness :
    (([9, 9, 9] : List Byte).length < 5
        ∨ ([9, 9, 9] : List Byte).length - 5
            < DecodeFixed32 [9, 9, 9] (([9, 9, 9] : List Byte).length - 5))
      ∧ (FilterBlockReader.Construct [9, 9, 9]).num_ = 0
      ∧ (FilterBlockReader.Construct [9, 9, 9]).KeyMayMatch pAlwaysTrue 0 []
          = true :=
  ⟨Or.inl (by decide),
    failOpen_malformedFooter [9, 9, 9] pAlwaysTrue 0 [] (Or.inl (by decide))⟩

/-- **C3** counterexample — the claim "`start == limit` implies
`KeyMayMatch` returns `false`" fails on the code: close bucket 0 empty
(`StartBlock 2048`), finish, and query bucket 0 with the legal
always-true policy.  The decoded pair satisfies `start = limit = 0`
within bounds, the reader is valid with one bucket, yet the code
delegates to the policy on the empty slice and returns `true`. -/
theorem emptyMarker_cex :
    (FilterBlockReader.Construct
        (finishedOutput pAlwaysTrue [BuilderCall.startBlock 2048])).num_ = 1
      ∧ bucketIndex (FilterBlockReader.Construct
          (finishedOutput pAlwaysTrue [BuilderCall.startBlock 2048])) 0
        < (FilterBlockReader.Construct
          (finishedOutput pAlwaysTrue [BuilderCall.startBlock 2048])).num_
      ∧ filterStart (FilterBlockReader.Construct
          (finishedOutput pAlwaysTrue [BuilderCall.startBlock 2048])) 0
        = filterLimit (FilterBlockReader.Construct
          (finishedOutput pAlwaysTrue [BuilderCall.startBlock 2048])) 0
      ∧ (FilterBlockReader.Construct
          (finishedOutput pAlwaysTrue [BuilderCall.startBlock 2048])).KeyMayMatch
          pAlwaysTrue 0 [5] = true := by
  decide

theorem sliceList_zero (s : List Byte) (off : Nat) :
    sliceList s off 0 = [] := by
  unfold sliceList
  exact List.take_zero _

/-- **C3** (amended) — Empty-marker buckets report `false` provided the
policy rejects the empty filter (`KeyMayMatch key [] = false` for
every key, as leveldb's bloom policy does for filters shorter than 2
bytes): when the decoded pair of an in-range bucket satisfies
`start = limit`, an in-bounds pair delegates to the policy on the
empty byte slice and an out-of-bounds pair takes the explicit `false`
branch, so the query returns `false` either way. -/
theorem emptyMarker_reportsFalse (p : FilterPolicy) (r : FilterBlockReader)
    (off : Nat) (k : List Byte)
    (hemp : ∀ key, p.KeyMayMatch key [] = false)
    (hidx : bucketIndex r off < r.num_)
    (heq : filterStart r off = filterLimit r off) :
    r.KeyMayMatch p off k = false := by
  unfold FilterBlockReader.KeyMayMatch
  rw [if_pos hidx]
  by_cases hb : filterStart r off ≤ filterLimit r off
      ∧ filterLimit r off ≤ r.offset_
  · rw [if_pos hb, heq, Nat.sub_self, sliceList_zero]
    exact hemp k
  · rw [if_neg hb, if_pos heq]

/-- Witness for `emptyMarker_reportsFalse`: the finished region with
one empty bucket, probed with `pNonEmptyProbe`. -/
theorem emptyMarker_reportsFalse_witness :
    bucketIndex (FilterBlockReader.Construct
          [0, 0, 0, 0, 0, 0, 0, 0, 11]) 0
        < (FilterBlockReader.Construct [0, 0, 0, 0, 0, 0, 0, 0, 11]).num_
      ∧ filterStart (FilterBlockReader.Construct
          [0, 0, 0, 0, 0, 0, 0, 0, 11]) 0
        = filterLimit (FilterBlockReader.Construct
          [0, 0, 0, 0, 0, 0, 0, 0, 11]) 0
      ∧ (FilterBlockReader.Construct
          [0, 0, 0, 0, 0, 0, 0, 0, 11]).KeyMayMatch pNonEmptyProbe 0 [5]
        = false :=
  ⟨by decide, by decide,
    emptyMarker_reportsFalse pNonEmptyProbe
      (FilterBlockReader.Construct [0, 0, 0, 0, 0, 0, 0, 0, 11]) 0 [5]
      (fun _ => rfl) (by decide) (by decide)⟩

/-- **C4** counterexample — the claim "decoded pair out of range implies
`KeyMayMatch` returns `true`" fails on the code: in the crafted valid
reader below, bucket 0 decodes `start = limit = 1` while the bound
`offset_ - data_` is 0, so the range check fails, but the code then
takes the `start == limit` branch and returns `false`, not `true`. -/
theorem outOfRange_cex :
    (FilterBlockReader.Construct
        [1, 0, 0, 0, 1, 0, 0, 0, 0, 0, 0, 0, 11]).num_ = 2
      ∧ bucketIndex (FilterBlockReader.Construct
          [1, 0, 0, 0, 1, 0, 0, 0, 0, 0, 0, 0, 11]) 0
        < (FilterBlockReader.Construct
          [1, 0, 0, 0, 1, 0, 0, 0, 0, 0, 0, 0, 11]).num_
      ∧ ¬(filterStart (FilterBlockReader.Construct
            [1, 0, 0, 0, 1, 0, 0, 0, 0, 0, 0, 0, 11]) 0
          ≤ filterLimit (FilterBlockReader.Construct
            [1, 0, 0, 0, 1, 0, 0, 0, 0, 0, 0, 0, 11]) 0
          ∧ filterLimit (FilterBlockReader.Construct
            [1, 0, 0, 0, 1, 0, 0, 0, 0, 0, 0, 0, 11]) 0
          ≤ (FilterBlockReader.Construct
            [1, 0, 0, 0, 1, 0, 0, 0, 0, 0, 0, 0, 11]).offset_)
      ∧ (FilterBlockReader.Construct
          [1, 0, 0, 0, 1, 0, 0, 0, 0, 0, 0, 0, 11]).KeyMayMatch
          pAlwaysTrue 0 [] = false := by
  decide

/-- **C4** (amended) — Fail-open on out-of-range filter bounds: for an
in-range bucket whose decoded pair violates
`start ≤ limit ≤ offset_ - data_` *and* has `start ≠ limit` (the
`start = limit` case is the empty-marker branch, which returns
`false`), `KeyMayMatch` returns `true`. -/
theorem outOfRange_failOpen (p : FilterPolicy) (r : FilterBlockReader)
    (off : Nat) (k : List Byte)
    (hidx : bucketIndex r off < r.num_)
    (hnb : ¬(filterStart r off ≤ filterLimit r off
        ∧ filterLimit r off ≤ r.offset_))
    (hne : filterStart r off ≠ filterLimit r off) :
    r.KeyMayMatch p off k = true := by
  unfold FilterBlockReader.KeyMayMatch
  rw [if_pos hidx, if_neg hnb, if_neg hne]

/-- Witness for `outOfRange_failOpen`: bucket 0 decodes
`start = 2 > limit = 1`. -/
theorem outOfRange_failOpen_witness :
    bucketIndex (FilterBlockReader.Construct
          [2, 0, 0, 0, 1, 0, 0, 0, 0, 0, 0, 0, 11]) 0
        < (FilterBlockReader.Construct
          [2, 0, 0, 0, 1, 0, 0, 0, 0, 0, 0, 0, 11]).num_
      ∧ (FilterBlockReader.Construct
          [2, 0, 0, 0, 1, 0, 0, 0, 0, 0, 0, 0, 11]).KeyMayMatch
          pAlwaysTrue 0 [] = true :=
  ⟨by decide,
    outOfRange_failOpen pAlwaysTrue
      (FilterBlockReader.Construct [2, 0, 0, 0, 1, 0, 0, 0, 0, 0, 0, 0, 11])
      0 [] (by decide) (by decide) (by decide)⟩

set_option maxRecDepth 100000 in
/-- **C5** counterexample — the claim says the scenario
`StartBlock 0; StartBlock 100000; Finish` yields `100000 / 2048 + 1`
(= 49) buckets; the code yields `100000 / 2048` (= 48): `Finish` only
closes one more bucket when keys are pending, and none are. -/
theorem sparseBucketCount_cex :
    (FilterBlockReader.Construct (finishedOutput pAlwaysTrue
        [BuilderCall.startBlock 0, BuilderCall.startBlock 100000])).num_ = 48
      ∧ (48 : Nat) ≠ 100000 / 2048 + 1 := by
  decide

/-- **C5** (amended) — Sparse-block bucket count: after
`StartBlock 0; StartBlock 100000` and `Finish` with no keys added, the
number of directory entries and the reader's bucket count both equal
`100000 / 2048` (= 48). -/
theorem sparseBucketCount (p : FilterPolicy) :
    ((runCalls p [BuilderCall.startBlock 0, BuilderCall.startBlock 100000]
          FilterBlockBuilder.init).flushPending p).filter_offsets_.length
        = 100000 / 2048
      ∧ (FilterBlockReader.Construct (finishedOutput p
          [BuilderCall.startBlock 0, BuilderCall.startBlock 100000])).num_
        = 100000 / 2048 := by
  have habs : absRun [BuilderCall.startBlock 0, BuilderCall.startBlock 100000]
      ⟨[], []⟩ = ⟨[], List.replicate 48 []⟩ := by decide
  have hfb : finalBuckets [BuilderCall.startBlock 0,
      BuilderCall.startBlock 100000] = List.replicate 48 [] := by
    unfold finalBuckets
    rw [habs]
    decide
  have hch : chunksOf p (List.replicate 48 []) = List.replicate 48 [] := by
    unfold chunksOf
    rw [List.map_replicate]
    rfl
  constructor
  · rw [show (runCalls p
        [BuilderCall.startBlock 0, BuilderCall.startBlock 100000]
        FilterBlockBuilder.init).flushPending p
      = concretize p (absFlush (absRun
          [BuilderCall.startBlock 0, BuilderCall.startBlock 100000]
          ⟨[], []⟩)) from by rw [runCalls_init, flushPending_concretize]]
    rw [concretize_offsets_length, habs]
    decide
  · rw [finishedOutput_eq_outOf, hfb,
      Construct_outOf p (List.replicate 48 []) (by rw [hch]; decide)]
    rw [show (List.replicate 48 ([] : List (List Byte))).length = 48 from by
      decide]

theorem dirStartOf_outOf (p : FilterPolicy)
    (buckets : List (List (List Byte)))
    (hsz : (chunksOf p buckets).flatten.length < 4294967296) :
    dirStartOf (outOf p buckets)
      = (chunksOf p buckets).flatten.length := by
  unfold dirStartOf
  rw [show (outOf p buckets).length - 5
      = (chunksOf p buckets).flatten.length + 4 * buckets.length from by
    rw [outOf_length]; omega]
  rw [decode_outOf_dir p buckets buckets.length (Nat.le_refl _) hsz,
    show buckets.length = (chunksOf p buckets).length from by simp [chunksOf]]
  exact partialLen_full _

theorem numEntriesOf_outOf (p : FilterPolicy)
    (buckets : List (List (List Byte)))
    (hsz : (chunksOf p buckets).flatten.length < 4294967296) :
    numEntriesOf (outOf p buckets) = buckets.length := by
  unfold numEntriesOf
  rw [dirStartOf_outOf p buckets hsz, outOf_length]
  omega

/-- **C6** counterexample — the claim "the last directory entry equals
the byte position where the directory begins" fails on the code: with
one key and the one-byte filter `[1]`, the directory begins at byte 1
but its single (last) entry decodes to 0, the start of bucket 0's
filter. -/
theorem monotonicDirectory_cex :
    numEntriesOf (finishedOutput pMarkOne [BuilderCall.addKey [7]]) = 1
      ∧ dirStartOf (finishedOutput pMarkOne [BuilderCall.addKey [7]]) = 1
      ∧ DecodeFixed32 (finishedOutput pMarkOne [BuilderCall.addKey [7]])
          (dirStartOf (finishedOutput pMarkOne [BuilderCall.addKey [7]])
            + 4 * (numEntriesOf
                (finishedOutput pMarkOne [BuilderCall.addKey [7]]) - 1))
        ≠ dirStartOf (finishedOutput pMarkOne [BuilderCall.addKey [7]]) := by
  decide

/-- **C6** (amended) — Monotonic directory invariant: for every
`Finish` output (fitting the 4-byte format, length < 2^32), the
decoded directory entries, extended with the directory-start field as
entry `n` (the word the reader decodes as the last bucket's limit),
are non-decreasing; every entry lies within `[0, directory_start]`;
the directory occupies exactly `4 * n` bytes; and the extended entry
`n` — the 4-byte word immediately after the `n` entries — equals the
byte position where the directory begins (the last *entry* itself
equals that position only when the last filter is empty). -/
theorem monotonicDirectory (p : FilterPolicy) (cs : List BuilderCall)
    (i j : Nat)
    (hsz : (finishedOutput p cs).length < 4294967296)
    (hij : i ≤ j) (hj : j ≤ numEntriesOf (finishedOutput p cs)) :
    DecodeFixed32 (finishedOutput p cs)
        (dirStartOf (finishedOutput p cs) + 4 * i)
      ≤ DecodeFixed32 (finishedOutput p cs)
        (dirStartOf (finishedOutput p cs) + 4 * j)
    ∧ DecodeFixed32 (finishedOutput p cs)
        (dirStartOf (finishedOutput p cs) + 4 * i)
      ≤ dirStartOf (finishedOutput p cs)
    ∧ (finishedOutput p cs).length - 5 - dirStartOf (finishedOutput p cs)
      = 4 * numEntriesOf (finishedOutput p cs)
    ∧ DecodeFixed32 (finishedOutput p cs)
        (dirStartOf (finishedOutput p cs)
          + 4 * numEntriesOf (finishedOutput p cs))
      = dirStartOf (finishedOutput p cs) := by
  rw [finishedOutput_eq_outOf] at hsz hj ⊢
  have houtlen := outOf_length p (finalBuckets cs)
  have hF : (chunksOf p (finalBuckets cs)).flatten.length < 4294967296 := by
    omega
  rw [numEntriesOf_outOf p _ hF] at hj
  rw [dirStartOf_outOf p _ hF, numEntriesOf_outOf p _ hF]
  have hchlen : (chunksOf p (finalBuckets cs)).length
      = (finalBuckets cs).length := by simp [chunksOf]
  refine ⟨?_, ?_, ?_, ?_⟩
  · rw [decode_outOf_dir p _ i (by omega) hF, decode_outOf_dir p _ j hj hF]
    exact partialLen_mono _ hij
  · rw [decode_outOf_dir p _ i (by omega) hF]
    exact partialLen_le_total _ _
  · omega
  · rw [decode_outOf_dir p _ (finalBuckets cs).length (Nat.le_refl _) hF,
      show (finalBuckets cs).length = (chunksOf p (finalBuckets cs)).length
        from hchlen.symm]
    exact partialLen_full _

/-- Witness for `monotonicDirectory`: one key, one bucket, entries 0
and the sentinel 1. -/
theorem monotonicDirectory_witness :
    (finishedOutput pMarkOne [BuilderCall.addKey [7]]).length < 4294967296
      ∧ 1 ≤ numEntriesOf (finishedOutput pMarkOne [BuilderCall.addKey [7]])
      ∧ DecodeFixed32 (finishedOutput pMarkOne [BuilderCall.addKey [7]])
          (dirStartOf (finishedOutput pMarkOne [BuilderCall.addKey [7]])
            + 4 * numEntriesOf
                (finishedOutput pMarkOne [BuilderCall.addKey [7]]))
        = dirStartOf (finishedOutput pMarkOne [BuilderCall.addKey [7]]) :=
  ⟨by decide, by decide,
    (monotonicDirectory pMarkOne [BuilderCall.addKey [7]] 0 1 (by decide)
      (by decide) (by decide)).2.2.2⟩

/-- **C7** — `StartBlock` precondition and effect: under the assertion
condition `filter_offsets_.size() ≤ block_offset / kFilterBase` (the
debug `assert` of the source, guaranteed by the caller's non-decreasing
offsets), after the call the number of directory entries equals
`block_offset / kFilterBase`, and the previously recorded entries are
unchanged (each skipped bucket appended exactly one new entry). -/
theorem startBlock_assertion (p : FilterPolicy) (b : FilterBlockBuilder)
    (off : Nat)
    (h : b.filter_offsets_.length ≤ off / kFilterBase) :
    (b.StartBlock p off).filter_offsets_.length = off / kFilterBase
      ∧ (b.StartBlock p off).filter_offsets_.take b.filter_offsets_.length
        = b.filter_offsets_ := by
  unfold FilterBlockBuilder.StartBlock
  refine ⟨?_, genFilters_offsets_take p b _⟩
  rw [genFilters_offsets_length]
  omega

/-- Witness for `startBlock_assertion`: a fresh builder notified at
offset 4096 (two bucket spans). -/
theorem startBlock_assertion_witness :
    FilterBlockBuilder.init.filter_offsets_.length ≤ 4096 / kFilterBase
      ∧ (FilterBlockBuilder.init.StartBlock pAlwaysTrue
          4096).filter_offsets_.length = 4096 / kFilterBase
      ∧ (FilterBlockBuilder.init.StartBlock pAlwaysTrue
          4096).filter_offsets_.take
            FilterBlockBuilder.init.filter_offsets_.length
        = FilterBlockBuilder.init.filter_offsets_ :=
  ⟨by decide,
    startBlock_assertion pAlwaysTrue FilterBlockBuilder.init 4096 (by decide)⟩

/-- **C8** — Footer round-trip: for every finished output (fitting the
4-byte format) with `n` closed buckets and `F` filter bytes, the
output length is `F + 4n + 4 + 1`, its last byte is the shift 11, and
the constructed reader is in the valid state (it keeps the contents as
`data_`) with `base_lg_ = 11` and `num_ = n`. -/
theorem footerRoundTrip (p : FilterPolicy) (cs : List BuilderCall)
    (hsz : (finishedOutput p cs).length < 4294967296) :
    (finishedOutput p cs).length
        = ((runCalls p cs
              FilterBlockBuilder.init).flushPending p).result_.length
          + 4 * ((runCalls p cs
              FilterBlockBuilder.init).flushPending p).filter_offsets_.length
          + 5
      ∧ (finishedOutput p cs).getD ((finishedOutput p cs).length - 1) 0
        = kFilterBaseLg
      ∧ (FilterBlockReader.Construct (finishedOutput p cs)).base_lg_
        = kFilterBaseLg
      ∧ (FilterBlockReader.Construct (finishedOutput p cs)).num_
        = ((runCalls p cs
            FilterBlockBuilder.init).flushPending p).filter_offsets_.length
      ∧ (FilterBlockReader.Construct (finishedOutput p cs)).data_
        = finishedOutput p cs := by
  have hflush : (runCalls p cs FilterBlockBuilder.init).flushPending p
      = concretize p (absFlush (absRun cs ⟨[], []⟩)) := by
    rw [runCalls_init, flushPending_concretize]
  have hres : ((runCalls p cs FilterBlockBuilder.init).flushPending p).result_
      = (chunksOf p (finalBuckets cs)).flatten := by
    rw [hflush]; rfl
  have hoffs : ((runCalls p cs
      FilterBlockBuilder.init).flushPending p).filter_offsets_.length
      = (finalBuckets cs).length := by
    rw [hflush, concretize_offsets_length]; rfl
  have houtlen := outOf_length p (finalBuckets cs)
  rw [finishedOutput_eq_outOf] at hsz ⊢
  have hF : (chunksOf p (finalBuckets cs)).flatten.length < 4294967296 := by
    omega
  rw [hres, hoffs, Construct_outOf p _ hF, outOf_getD_last]
  exact ⟨houtlen, rfl, rfl, rfl, rfl⟩

/-- Witness for `footerRoundTrip`: one key `[3]` with the `pMarkOne`
policy. -/
theorem footerRoundTrip_witness :
    (finishedOutput pMarkOne [BuilderCall.addKey [3]]).length < 4294967296
      ∧ (FilterBlockReader.Construct
          (finishedOutput pMarkOne [BuilderCall.addKey [3]])).num_
        = ((runCalls pMarkOne [BuilderCall.addKey [3]]
              FilterBlockBuilder.init).flushPending
            pMarkOne).filter_offsets_.length :=
  ⟨by decide,
    (footerRoundTrip pMarkOne [BuilderCall.addKey [3]] (by decide)).2.2.2.1⟩

/-- **C9** — Query determinism and statelessness: with the receiver
state threaded explicitly, a query leaves the reader unchanged, a
second identical query returns the same boolean, and the threaded
version agrees with `KeyMayMatch` (the policy is a pure function in
this model, which is its contract). -/
theorem queryStateless (p : FilterPolicy) (r : FilterBlockReader)
    (off : Nat) (k : List Byte) :
    (r.KeyMayMatchSt p off k).2 = r
      ∧ ((r.KeyMayMatchSt p off k).2.KeyMayMatchSt p off k).1
        = (r.KeyMayMatchSt p off k).1
      ∧ (r.KeyMayMatchSt p off k).1 = r.KeyMayMatch p off k := by
  have h2 : (r.KeyMayMatchSt p off k).2 = r := by
    unfold FilterBlockReader.KeyMayMatchSt
    by_cases hA : bucketIndex r off < r.num_
    · rw [if_pos hA]
      by_cases hB : filterStart r off ≤ filterLimit r off
          ∧ filterLimit r off ≤ r.offset_
      · rw [if_pos hB]
      · rw [if_neg hB]
        by_cases hC : filterStart r off = filterLimit r off
        · rw [if_pos hC]
        · rw [if_neg hC]
    · rw [if_neg hA]
  have h1 : (r.KeyMayMatchSt p off k).1 = r.KeyMayMatch p off k := by
    unfold FilterBlockReader.KeyMayMatchSt FilterBlockReader.KeyMayMatch
    by_cases hA : bucketIndex r off < r.num_
    · rw [if_pos hA, if_pos hA]
      by_cases hB : filterStart r off ≤ filterLimit r off
          ∧ filterLimit r off ≤ r.offset_
      · rw [if_pos hB, if_pos hB]
      · rw [if_neg hB, if_neg hB]
        by_cases hC : filterStart r off = filterLimit r off
        · rw [if_pos hC, if_pos hC]
        · rw [if_neg hC, if_neg hC]
    · rw [if_neg hA, if_neg hA]
  exact ⟨h2, by rw [h2], h1⟩

/-- **C10** — Empty-builder edge case: `Finish` on a fresh builder
returns exactly the 5 bytes `[0, 0, 0, 0, 11]` (a 4-byte little-endian
zero directory start, then the shift byte); a reader constructed from
them is in the valid state (`data_` kept) with bucket count 0, so
every query answers `true`. -/
theorem emptyBuilder_finish (p : FilterPolicy) (off : Nat) (k : List Byte) :
    FilterBlockBuilder.Finish p FilterBlockBuilder.init = [0, 0, 0, 0, 11]
      ∧ FilterBlockReader.Construct [0, 0, 0, 0, 11]
        = ⟨[0, 0, 0, 0, 11], 0, 0, 11⟩
      ∧ (FilterBlockReader.Construct [0, 0, 0, 0, 11]).KeyMayMatch p off k
        = true := by
  have hfin : FilterBlockBuilder.Finish p FilterBlockBuilder.init
      = [0, 0, 0, 0, 11] := by
    unfold FilterBlockBuilder.Finish FilterBlockBuilder.flushPending
    rw [if_neg (show ¬(FilterBlockBuilder.init.start_ ≠ []) by simp
      [FilterBlockBuilder.init])]
    rfl
  refine ⟨hfin, by decide, ?_⟩
  rw [show FilterBlockReader.Construct [0, 0, 0, 0, 11]
      = ⟨[0, 0, 0, 0, 11], 0, 0, 11⟩ from by decide]
  unfold FilterBlockReader.KeyMayMatch
  rw [if_neg (Nat.not_lt_zero _)]

/-! ### The 2^32-byte overflow scenario

One key `[7]` is added and `Finish` is called with `pHugeFilter`,
whose single filter is 2^32 zero bytes.  `result_.size()` is then
2^32, so the `uint32_t` directory entries and directory-start field
all truncate to 0 and the reader mis-parses the region.  The lemmas
below compute the finished region and the reader built over it
without ever evaluating the 2^32-element list. -/

theorem getD_replicate_zero (n i : Nat) :
    (List.replicate n (0 : Nat)).getD i 0 = 0 := by
  rcases Nat.lt_or_ge i n with h | h
  · simp [List.getD_eq_getElem?_getD, List.getElem?_replicate, h]
  · simp [List.getD_eq_getElem?_getD, List.getElem?_replicate,
      Nat.not_lt.mpr h]

theorem replicate_isEmpty_false (n : Nat) (h : n ≠ 0) :
    (List.replicate n (0 : Nat)).isEmpty = false := by
  simp [List.isEmpty_iff, h]

theorem hugeRun :
    runCalls pHugeFilter [BuilderCall.addKey [7]] FilterBlockBuilder.init
      = ⟨[7], [0], [], []⟩ := rfl

theorem hugeFlush :
    (FilterBlockBuilder.mk [7] [0] [] []).flushPending pHugeFilter
      = ⟨[], [], List.replicate 4294967296 0, [0]⟩ := rfl

theorem hugeFinish :
    finishedOutput pHugeFilter [BuilderCall.addKey [7]]
      = List.replicate 4294967296 0 ++ [0, 0, 0, 0, 0, 0, 0, 0, 11] := by
  unfold finishedOutput FilterBlockBuilder.Finish
  rw [hugeRun, hugeFlush]
  simp only [List.foldl_cons, List.foldl_nil]
  rw [List.length_replicate]
  unfold PutFixed32
  rw [show Enc32 0 = [0, 0, 0, 0] from rfl,
    show Enc32 4294967296 = [0, 0, 0, 0] from by norm_num [Enc32]]
  rw [List.append_assoc, List.append_assoc]
  congr 1

theorem hugeGetD_lt (t : List Byte) (j : Nat) (h : j < 4294967296) :
    (List.replicate 4294967296 (0 : Nat) ++ t).getD j 0 = 0 := by
  rw [List.getD_append _ _ _ _ (by rw [List.length_replicate]; exact h)]
  exact getD_replicate_zero _ _

theorem hugeGetD_ge (t : List Byte) (j : Nat) (h : 4294967296 ≤ j) :
    (List.replicate 4294967296 (0 : Nat) ++ t).getD j 0
      = t.getD (j - 4294967296) 0 := by
  rw [List.getD_append_right _ _ _ _
    (by rw [List.length_replicate]; exact h)]
  rw [List.length_replicate]

theorem hugeLen :
    (List.replicate 4294967296 (0 : Nat)
        ++ [0, 0, 0, 0, 0, 0, 0, 0, 11]).length = 4294967305 := by
  rw [List.length_append, List.length_replicate]
  norm_num

theorem hugeDecode_low (j : Nat) (h : j + 3 < 4294967296) :
    DecodeFixed32 (List.replicate 4294967296 (0 : Nat)
      ++ [0, 0, 0, 0, 0, 0, 0, 0, 11]) j = 0 := by
  unfold DecodeFixed32
  rw [hugeGetD_lt _ _ (by omega), hugeGetD_lt _ _ (by omega),
    hugeGetD_lt _ _ (by omega), hugeGetD_lt _ _ (by omega)]

theorem hugeDecode_footer :
    DecodeFixed32 (List.replicate 4294967296 (0 : Nat)
      ++ [0, 0, 0, 0, 0, 0, 0, 0, 11]) 4294967300 = 0 := by
  rw [DecodeFixed32_append_ge _ _ _
      (by rw [List.length_replicate]; norm_num),
    List.length_replicate]
  decide

theorem hugeConstruct :
    FilterBlockReader.Construct (List.replicate 4294967296 (0 : Nat)
        ++ [0, 0, 0, 0, 0, 0, 0, 0, 11])
      = ⟨List.replicate 4294967296 (0 : Nat)
          ++ [0, 0, 0, 0, 0, 0, 0, 0, 11], 0, 1073741825, 11⟩ := by
  unfold FilterBlockReader.Construct
  rw [hugeLen, show (4294967305 : Nat) - 5 = 4294967300 from by norm_num,
    hugeDecode_footer, if_neg (by norm_num), if_neg (by norm_num),
    show (4294967305 : Nat) - 1 = 4294967304 from by norm_num,
    hugeGetD_ge _ _ (by omega)]
  congr 1

theorem hugeQuery :
    (FilterBlockReader.Construct (List.replicate 4294967296 (0 : Nat)
        ++ [0, 0, 0, 0, 0, 0, 0, 0, 11])).KeyMayMatch pHugeFilter 0 [7]
      = false := by
  rw [hugeConstruct]
  have hstart : filterStart
      ⟨List.replicate 4294967296 (0 : Nat)
        ++ [0, 0, 0, 0, 0, 0, 0, 0, 11], 0, 1073741825, 11⟩ 0 = 0 := by
    show DecodeFixed32 (List.replicate 4294967296 (0 : Nat)
      ++ [0, 0, 0, 0, 0, 0, 0, 0, 11]) (0 + 0 / 2 ^ 11 * 4) = 0
    exact hugeDecode_low _ (by norm_num)
  have hlimit : filterLimit
      ⟨List.replicate 4294967296 (0 : Nat)
        ++ [0, 0, 0, 0, 0, 0, 0, 0, 11], 0, 1073741825, 11⟩ 0 = 0 := by
    show DecodeFixed32 (List.replicate 4294967296 (0 : Nat)
      ++ [0, 0, 0, 0, 0, 0, 0, 0, 11]) (0 + 0 / 2 ^ 11 * 4 + 4) = 0
    exact hugeDecode_low _ (by norm_num)
  unfold FilterBlockReader.KeyMayMatch
  rw [hstart, hlimit]
  rw [if_pos (show bucketIndex
      ⟨List.replicate 4294967296 (0 : Nat)
        ++ [0, 0, 0, 0, 0, 0, 0, 0, 11], 0, 1073741825, 11⟩ 0
      < 1073741825 from by
    show (0 : Nat) / 2 ^ 11 < 1073741825
    norm_num)]
  rw [if_pos ⟨Nat.le_refl 0, Nat.le_refl 0⟩, Nat.sub_self, sliceList_zero]
  show (!(List.nil (α := Byte)).isEmpty) = false
  rfl

/-- **C1** counterexample — the claim as stated fails on the code once
a (legal, no-false-negative) policy's filters overflow the 4-byte
offset format: with `pHugeFilter`, key `[7]` is added while bucket 0
is pending, the offsets are (vacuously) non-decreasing, and the
query's bucket index is 0, yet the reader answers `false` for the
added key, because `Finish` truncated the 2^32 directory-start to 0
and the mis-parsed directory hands the policy the empty slice. -/
theorem noFalseNegatives_cex :
    (∀ ks key, key ∈ ks →
        pHugeFilter.KeyMayMatch key (pHugeFilter.CreateFilter ks) = true)
      ∧ (runCalls pHugeFilter []
          FilterBlockBuilder.init).filter_offsets_.length = 0
      ∧ nonDecr (blockOffsetsOf [BuilderCall.addKey [7]]) = true
      ∧ (0 : Nat) / 2 ^ kFilterBaseLg = 0
      ∧ (FilterBlockReader.Construct
          (finishedOutput pHugeFilter [BuilderCall.addKey [7]])).KeyMayMatch
          pHugeFilter 0 [7] = false :=
  ⟨fun ks key _ => by
      show (!(List.replicate 4294967296 (0 : Nat)).isEmpty) = true
      rw [replicate_isEmpty_false 4294967296 (by norm_num)]
      rfl,
    rfl, rfl, rfl,
    by rw [hugeFinish]; exact hugeQuery⟩

/-- **C8** counterexample — the claim as stated fails on the code once
the filter bytes overflow the 4-byte offset format: with
`pHugeFilter` and one key, `Finish` closes `n = 1` bucket, but the
reader constructed from the output reports `num_ = 2^30 + 1`, because
the truncated directory-start field 0 passes the footer validation
and mis-partitions the region. -/
theorem footerRoundTrip_cex :
    ((runCalls pHugeFilter [BuilderCall.addKey [7]]
          FilterBlockBuilder.init).flushPending
        pHugeFilter).filter_offsets_.length = 1
      ∧ (FilterBlockReader.Construct
          (finishedOutput pHugeFilter [BuilderCall.addKey [7]])).num_
        = 1073741825
      ∧ (1073741825 : Nat) ≠ 1 :=
  ⟨by rw [hugeRun, hugeFlush]; rfl,
    by rw [hugeFinish, hugeConstruct],
    by norm_num⟩

end leveldb
